import Mathlib

/-!
Verification of the FCFS shift-assignment engine of the hospital
shift-scheduler (source: `src/server/routes.ts`, `src/server/storage.ts`,
`src/shared/schema.ts`).

The embedding mirrors the TypeScript source:
* `calculateFCFSScore` embeds the scoring function at `routes.ts:98-128`,
  with the ambient `Date.now()` clock made an explicit `now : Int`
  parameter (milliseconds since the epoch) and JS numbers embedded as
  exact rationals (`ℚ`).
* The persistent store (`storage.ts`) becomes an explicit `State` record;
  the `POST /api/shifts` handler (queue build, `routes.ts:427-493`) and the
  `POST /api/fcfs-queue/respond` handler (`routes.ts:567-661`) become state
  transformers on it.
* Concurrency in the respond handler is modelled at the granularity of the
  individual `await storage.*` calls: `acceptChecksPass` is the read-only
  precondition phase, `acceptCommit` the write phase, and an interleaving
  of two requests is a sequence of such phases.
-/

namespace Scheduler

/-- JS millisecond timestamps. -/
abbrev Time := Int

/-- One day in milliseconds: `1000 * 60 * 60 * 24` (routes.ts:107). -/
def msPerDay : Int := 1000 * 60 * 60 * 24

/-- `Math.round` of JS: round half toward positive infinity,
`Math.round x = ⌊x + 0.5⌋`. -/
def jsRound (q : ℚ) : ℚ := (⌊q + 1/2⌋ : ℤ)

/-- `Math.round(score * 100) / 100` (routes.ts:127): round to 2 decimals. -/
def jsRound2 (q : ℚ) : ℚ := jsRound (q * 100) / 100

/-- A staff user, as read from the `users` table (schema.ts:6-18).
`skills` and `seniority_years` are nullable in the source and defaulted
with `|| []` / `|| 0` at use sites; `last_shift_date` is a nullable
timestamp. -/
structure User where
  id : Nat
  department_id : Nat
  is_active : Bool
  skills : Option (List String)
  seniority_years : Option Int
  last_shift_date : Option Time
deriving DecidableEq, Repr

/-- Shift lifecycle status (schema.ts:37). -/
inductive ShiftStatus
  | available | in_queue | assigned | completed | cancelled
deriving DecidableEq, Repr

/-- A shift row (schema.ts:28-42); only the fields the FCFS engine reads. -/
structure Shift where
  id : Nat
  department_id : Nat
  created_by : Nat
  required_skills : Option (List String)
  status : ShiftStatus
  assigned_user_id : Option Nat
deriving DecidableEq, Repr

/-- Queue-entry status (schema.ts:50). -/
inductive QueueStatus
  | pending | accepted | declined | expired
deriving DecidableEq, Repr

/-- An `fcfs_queue` row (schema.ts:44-53). -/
structure QueueEntry where
  id : Nat
  shift_id : Nat
  user_id : Nat
  priority_score : ℚ
  response_deadline : Time
  status : QueueStatus
deriving DecidableEq, Repr

/-- A notification row, reduced to the fields the queue build writes
(recipient and the shift it refers to, routes.ts:466-473). -/
structure Notification where
  user_id : Nat
  shift_id : Nat
deriving DecidableEq, Repr

/-! ## Scoring function (`calculateFCFSScore`, routes.ts:98-128) -/

/-- Seniority term: `(user.seniority_years || 0) * 3` (routes.ts:102). -/
def seniorityTerm (u : User) : ℚ := (u.seniority_years.getD 0 : ℤ) * 3

/-- Time-since-last-shift term (routes.ts:105-112):
if `last_shift_date` is set,
`daysSinceLastShift = Math.floor((now - last) / msPerDay)` and the term is
`Math.min(daysSinceLastShift * 0.2, 20)`; otherwise a flat 20. -/
def restTerm (now : Time) (u : User) : ℚ :=
  match u.last_shift_date with
  | some last =>
      let daysSinceLastShift : ℤ := ⌊((now - last : ℤ) : ℚ) / (msPerDay : ℚ)⌋
      min ((daysSinceLastShift : ℚ) * (2/10)) 20
  | none => 20

/-- Skill-match term (routes.ts:115-121): with `userSkills = user.skills || []`
and `requiredSkills = shift.required_skills || []`, the term is
`(matchingSkills / requiredSkills.length) * 25` when at least one skill is
required, else 0. -/
def skillTerm (u : User) (s : Shift) : ℚ :=
  let userSkills := u.skills.getD []
  let requiredSkills := s.required_skills.getD []
  let matchingSkills := (userSkills.filter (fun sk => requiredSkills.contains sk)).length
  if requiredSkills.length > 0 then
    ((matchingSkills : ℚ) / (requiredSkills.length : ℚ)) * 25
  else 0

/-- `calculateFCFSScore` (routes.ts:98-128); the `Date.now()` read inside the
source function is the explicit `now` argument. Availability contributes a
flat 25 (routes.ts:124), and the sum is rounded to two decimals. -/
def calculateFCFSScore (now : Time) (u : User) (s : Shift) : ℚ :=
  jsRound2 (seniorityTerm u + restTerm now u + skillTerm u s + 25)

/-! ## The persistent store and the two handlers -/

/-- The persistent store: the tables `storage.ts` reads and writes, plus a
fresh-id counter standing for the database's id generation (the source uses
UUIDs; any injective id supply is equivalent for the engine's logic). -/
structure State where
  users : List User
  shifts : List Shift
  queue : List QueueEntry
  notifications : List Notification
  nextId : Nat
deriving DecidableEq, Repr

/-- Initial store: a user directory, no shifts, no queue entries. -/
def initState (users : List User) : State :=
  { users := users, shifts := [], queue := [], notifications := [], nextId := 0 }

/-- `DatabaseStorage.getEligibleUsersForShift` (storage.ts:271-284): active
users of the shift's department, excluding the shift's creator. No skill or
experience filter. -/
def getEligibleUsersForShift (users : List User) (s : Shift) : List User :=
  users.filter (fun u =>
    u.department_id = s.department_id ∧ u.is_active ∧ u.id ≠ s.created_by)

/-- `DatabaseStorage.getShift` (storage.ts:155-162): select by id. -/
def getShift (st : State) (id : Nat) : Option Shift :=
  st.shifts.find? (fun s => s.id = id)

/-- `DatabaseStorage.updateShift` (storage.ts:172-179): unconditional
`UPDATE shifts SET ... WHERE id = ?`. -/
def updateShiftRow (shifts : List Shift) (id : Nat) (f : Shift → Shift) :
    List Shift :=
  shifts.map (fun s => if s.id = id then f s else s)

/-- `DatabaseStorage.updateFcfsQueueEntry` (storage.ts:232-239) specialised to
a status update: unconditional `UPDATE fcfs_queue SET status = ? WHERE id = ?`. -/
def updateEntryStatus (queue : List QueueEntry) (id : Nat) (st : QueueStatus) :
    List QueueEntry :=
  queue.map (fun e => if e.id = id then { e with status := st } else e)

/-- The respond handler's ownership lookup (routes.ts:579-581):
`storage.getFcfsQueue(undefined, req.user.id)` filters entries by the calling
user, then `.find(entry => entry.id === queue_id)` picks the target. The
entry is found iff it exists and belongs to the caller. -/
def findEntry (st : State) (queueId userId : Nat) : Option QueueEntry :=
  (st.queue.filter (fun e => e.user_id = userId)).find? (fun e => e.id = queueId)

/-- The response window: `responseDeadline.setHours(getHours() + 24)`
(routes.ts:448-449), i.e. 24 hours in milliseconds. -/
def responseWindowMs : Int := 24 * 60 * 60 * 1000

/-- The per-candidate loop of the `POST /api/shifts` handler
(routes.ts:453-472): for each eligible user, insert one `pending` queue entry
with the computed score and the shared deadline, and one notification. Entry
ids are drawn from the fresh-id counter. -/
def addEntriesAndNotify (now : Time) (shift : Shift) (deadline : Time) :
    List User → State → State
  | [], st => st
  | u :: rest, st =>
      let entry : QueueEntry :=
        { id := st.nextId, shift_id := shift.id, user_id := u.id,
          priority_score := calculateFCFSScore now u shift,
          response_deadline := deadline, status := .pending }
      let st' : State :=
        { st with queue := st.queue ++ [entry],
                  notifications := st.notifications ++ [⟨u.id, shift.id⟩],
                  nextId := st.nextId + 1 }
      addEntriesAndNotify now shift deadline rest st'

/-- The `POST /api/shifts` handler (routes.ts:427-493): create the shift
(status defaults to `available`, schema.ts:37), query eligible users, compute
the shared deadline `now + 24h`, insert one entry and one notification per
eligible user, then set the shift's status to `in_queue`
(routes.ts:475-476) — unconditionally, also when no user was eligible. -/
def createShiftHandler (now : Time) (departmentId createdBy : Nat)
    (requiredSkills : Option (List String)) (st : State) : State :=
  let sid := st.nextId
  let shift : Shift :=
    { id := sid, department_id := departmentId, created_by := createdBy,
      required_skills := requiredSkills, status := .available,
      assigned_user_id := none }
  let st1 : State :=
    { st with shifts := st.shifts ++ [shift], nextId := st.nextId + 1 }
  let eligibleUsers := getEligibleUsersForShift st1.users shift
  let responseDeadline := now + responseWindowMs
  let st2 := addEntriesAndNotify now shift responseDeadline eligibleUsers st1
  let shifts3 := updateShiftRow st2.shifts sid (fun s => { s with status := .in_queue })
  { st2 with shifts := shifts3 }

/-- The candidate's decision in the respond request body. -/
inductive Decision
  | accept | decline
deriving DecidableEq, Repr

/-- The caller-facing outcomes of the respond handler (routes.ts:583-608 and
the success path), one variant per distinct HTTP rejection. -/
inductive RespondOutcome
  | notFoundOrUnauthorized   -- 404, routes.ts:583-585
  | alreadyResolved          -- 400, routes.ts:587-589
  | deadlinePassed           -- 400, routes.ts:592-594
  | shiftNotFound            -- 404, routes.ts:602-604
  | shiftAlreadyAssigned     -- 409, routes.ts:606-608
  | success
deriving DecidableEq, Repr

/-- The cascade loop of the accept branch (routes.ts:620-626): every entry of
the shift other than the accepted one that is still `pending` is set to
`expired`; all other rows are untouched. -/
def cascadeExpire (queue : List QueueEntry) (shiftId exceptId : Nat) :
    List QueueEntry :=
  queue.map (fun e =>
    if e.shift_id = shiftId ∧ e.id ≠ exceptId ∧ e.status = .pending then
      { e with status := .expired }
    else e)

/-- The `POST /api/fcfs-queue/respond` handler (routes.ts:567-661), executed
atomically (no interleaved writer between its storage calls). Checks, in
order: ownership/existence, `pending` status, deadline
(`new Date() > response_deadline`, so strictly-late only), and — on accept —
that the parent shift still has status `in_queue`; then commits the
entry/shift transitions and the cascade. Every failed check returns before
any write. -/
def respond (now : Time) (userId queueId : Nat) (d : Decision) (st : State) :
    RespondOutcome × State :=
  match findEntry st queueId userId with
  | none => (.notFoundOrUnauthorized, st)
  | some e =>
    if e.status ≠ .pending then (.alreadyResolved, st)
    else if now > e.response_deadline then (.deadlinePassed, st)
    else
      match d with
      | .decline =>
          (.success, { st with queue := updateEntryStatus st.queue queueId .declined })
      | .accept =>
        match getShift st e.shift_id with
        | none => (.shiftNotFound, st)
        | some s =>
          if s.status ≠ .in_queue then (.shiftAlreadyAssigned, st)
          else
            let queue1 := updateEntryStatus st.queue queueId .accepted
            let shifts1 := updateShiftRow st.shifts s.id
              (fun sh => { sh with status := .assigned, assigned_user_id := some userId })
            let queue2 := cascadeExpire queue1 e.shift_id queueId
            (.success, { st with queue := queue2, shifts := shifts1 })

/-! ## Micro-step view of the accept path, for interleaved executions

Each `await storage.*` call in the handler is one atomic database operation;
between two of them another request may run. The accept path therefore splits
into a read-only precondition phase (routes.ts:579-608: the queue lookup, the
status and deadline checks, `getShift`, the `in_queue` check) and a write
phase (routes.ts:611-626: set the entry `accepted`, set the shift `assigned`,
cascade). The write phase performs no further checks: its `UPDATE`s are
unconditional by id. -/

/-- The read-only precondition phase of an accept request: true iff every
check of the handler passes against the state the reads observe. -/
def acceptChecksPass (now : Time) (userId queueId : Nat) (st : State) : Bool :=
  match findEntry st queueId userId with
  | none => false
  | some e =>
    decide (e.status = .pending) && decide (¬ now > e.response_deadline) &&
      match getShift st e.shift_id with
      | none => false
      | some s => decide (s.status = .in_queue)

/-- The write phase of an accept request whose checks passed: the three
unconditional updates of routes.ts:611-626, applied to the current state. -/
def acceptCommit (userId queueId shiftId : Nat) (st : State) : State :=
  { st with
    queue := cascadeExpire (updateEntryStatus st.queue queueId .accepted) shiftId queueId,
    shifts := updateShiftRow st.shifts shiftId
      (fun sh => { sh with status := .assigned, assigned_user_id := some userId }) }

/-! ## Sequential operation language (for reachable-state invariants) -/

/-- One externally triggered operation of the engine, run atomically. -/
inductive Op
  | create (now : Time) (departmentId createdBy : Nat)
      (requiredSkills : Option (List String))
  | respondTo (now : Time) (userId queueId : Nat) (d : Decision)

/-- Apply one operation to the store. -/
def applyOp : Op → State → State
  | .create now dep cb skills, st => createShiftHandler now dep cb skills st
  | .respondTo now uid qid d, st => (respond now uid qid d st).2

/-- Run a sequence of operations left to right. -/
def runOps (ops : List Op) (st : State) : State :=
  ops.foldl (fun s o => applyOp o s) st

/-- Number of `accepted` entries a shift has. -/
def acceptedCount (st : State) (shiftId : Nat) : Nat :=
  (st.queue.filter (fun e => e.shift_id = shiftId ∧ e.status = .accepted)).length

/-- The status of the queue entry with a given id, if present. -/
def entryStatusById (st : State) (id : Nat) : Option QueueStatus :=
  (st.queue.find? (fun e => e.id = id)).map (fun e => e.status)

/-! ## Concrete fixtures (scenario 1 of the spec, §8) -/

/-- Scenario 1's candidate C1: seniority 5, last shift at epoch 0,
skills ICU and Emergency. -/
def candA : User where
  id := 1
  department_id := 10
  is_active := true
  skills := some ["ICU", "Emergency"]
  seniority_years := some 5
  last_shift_date := some 0

/-- Scenario 1's candidate C2: seniority 2, never worked, skill General. -/
def candB : User where
  id := 2
  department_id := 10
  is_active := true
  skills := some ["General"]
  seniority_years := some 2
  last_shift_date := none

/-- The creator of the scenario shift (same department, active). -/
def creatorU : User where
  id := 0
  department_id := 10
  is_active := true
  skills := none
  seniority_years := none
  last_shift_date := none

/-- Scenario 1's shift: department 10, requires ICU, in queue. -/
def shiftICU : Shift where
  id := 0
  department_id := 10
  created_by := 0
  required_skills := some ["ICU"]
  status := .in_queue
  assigned_user_id := none

/-- A candidate whose recorded last shift lies one full day in the future
of the evaluation clock (`now = 0`). -/
def futureCand : User where
  id := 3
  department_id := 10
  is_active := true
  skills := none
  seniority_years := some 5
  last_shift_date := some msPerDay

/-- The store after the scenario shift is created at time 0 in a directory
holding the creator and both candidates: shift 0 `in_queue`, entries 1
(candA) and 2 (candB) `pending` with deadline `0 + 24h`. -/
def queuedState : State :=
  createShiftHandler 0 10 0 (some ["ICU"]) (initState [creatorU, candA, candB])

/-- The store after a shift is created in a department whose only active
user is the creator: no candidate is eligible. -/
def soloCreatorState : State :=
  createShiftHandler 0 10 0 none (initState [creatorU])

/-! ## The scoring formula as the specification words it (§4.1) -/

/-- The score as the specification describes it, written independently of
`calculateFCFSScore`: seniority years times 3; a flat 20 for a candidate who
never worked, else `min(days_since_last_shift * 0.2, 20)` where the day count
is the floored difference of the two clocks; `matching/required * 25` when at
least one skill is required and 0 otherwise; plus a flat 25; the sum rounded
to two decimals. -/
def specScore (now : Time) (u : User) (s : Shift) : ℚ :=
  let seniority : ℚ := (u.seniority_years.getD 0 : ℤ) * 3
  let rest : ℚ :=
    match u.last_shift_date with
    | none => 20
    | some last =>
        min ((⌊((now - last : ℤ) : ℚ) / (msPerDay : ℚ)⌋ : ℚ) * (2/10)) 20
  let required := s.required_skills.getD []
  let matching := ((u.skills.getD []).filter (fun sk => required.contains sk)).length
  let skill : ℚ :=
    if required.length > 0 then ((matching : ℚ) / (required.length : ℚ)) * 25 else 0
  jsRound2 (seniority + rest + skill + 25)

/-- Claim C7: `calculateFCFSScore` computes exactly the specified weighted
sum — seniority years times 3, plus 20 for a candidate who never worked and
otherwise `min(days_since_last_shift * 0.2, 20)`, plus
`matching/required * 25` when the shift requires at least one skill and 0
when it requires none, plus a flat 25, rounded to two decimals; on
scenario 1 the scores are 66.4 for C1 and 51 for C2, and null skill lists
behave as empty lists on both the user and the shift. -/
theorem score_matches_spec :
    (∀ now u s, calculateFCFSScore now u s = specScore now u s) ∧
    calculateFCFSScore (7 * msPerDay) candA shiftICU = (66.4 : ℚ) ∧
    calculateFCFSScore (7 * msPerDay) candB shiftICU = 51 ∧
    (∀ now i d a sen last s,
      calculateFCFSScore now ⟨i, d, a, none, sen, last⟩ s
        = calculateFCFSScore now ⟨i, d, a, some [], sen, last⟩ s) ∧
    (∀ now u i d cb stt au,
      calculateFCFSScore now u ⟨i, d, cb, none, stt, au⟩
        = calculateFCFSScore now u ⟨i, d, cb, some [], stt, au⟩) := by
  refine ⟨?_, ?_, ?_, ?_, ?_⟩
  · intro now u s
    cases h : u.last_shift_date <;>
      simp [calculateFCFSScore, specScore, seniorityTerm, restTerm, skillTerm, h]
  · norm_num +decide [calculateFCFSScore, seniorityTerm, restTerm, skillTerm, candA,
      shiftICU, msPerDay, jsRound2, jsRound, min_def, List.filter]
  · norm_num +decide [calculateFCFSScore, seniorityTerm, restTerm, skillTerm, candB,
      shiftICU, msPerDay, jsRound2, jsRound, min_def, List.filter]
  · intro now i d a sen last s
    cases last <;> rfl
  · intro now u i d cb stt au
    rfl

/-- Claim C8 (counterexample): the source function reads `Date.now()`
internally, so two invocations with the identical candidate `candA` and the
identical shift `shiftICU` but clocks 7 days versus 200 days after the
candidate's last shift return 66.4 and 85 — different outputs for identical
candidate-and-shift inputs. -/
theorem score_differs_across_time :
    calculateFCFSScore (7 * msPerDay) candA shiftICU = (66.4 : ℚ) ∧
    calculateFCFSScore (200 * msPerDay) candA shiftICU = 85 ∧
    calculateFCFSScore (7 * msPerDay) candA shiftICU
      ≠ calculateFCFSScore (200 * msPerDay) candA shiftICU := by
  refine ⟨?_, ?_, ?_⟩ <;>
    norm_num +decide [calculateFCFSScore, seniorityTerm, restTerm, skillTerm, candA,
      shiftICU, msPerDay, jsRound2, jsRound, min_def, List.filter]

/-- Claim C8 (amended): the scoring function is deterministic once the clock
is counted among its inputs — the output depends only on the current time,
the candidate's seniority, last-shift date and skills, and the shift's
required skills; any two inputs agreeing there yield identical outputs. -/
theorem score_deterministic_in_inputs :
    ∀ (now : Time) (u₁ u₂ : User) (s₁ s₂ : Shift),
      u₁.seniority_years = u₂.seniority_years →
      u₁.last_shift_date = u₂.last_shift_date →
      u₁.skills = u₂.skills →
      s₁.required_skills = s₂.required_skills →
      calculateFCFSScore now u₁ s₁ = calculateFCFSScore now u₂ s₂ := by
  intro now u₁ u₂ s₁ s₂ h₁ h₂ h₃ h₄
  simp [calculateFCFSScore, seniorityTerm, restTerm, skillTerm, h₁, h₂, h₃, h₄]

/-- Witness for `score_deterministic_in_inputs`: two records differing only
in the user id and the shift's department give equal scores. -/
theorem score_deterministic_in_inputs_witness :
    calculateFCFSScore 0 candA shiftICU
      = calculateFCFSScore 0
          ⟨99, 77, false, candA.skills, candA.seniority_years, candA.last_shift_date⟩
          ⟨55, 44, 33, shiftICU.required_skills, .cancelled, some 5⟩ :=
  score_deterministic_in_inputs 0 candA _ shiftICU _ rfl rfl rfl rfl

/-- Claim C10: the time-since-last-shift term is capped above at 20 but not
below at 0 — a candidate whose recorded last shift lies at least one full
day in the future of the clock gets a strictly negative term, and the total
score falls strictly below seniority + skill match + 25. -/
theorem future_last_shift_lowers_score :
    ∀ (now : Time) (u : User) (s : Shift) (last : Time),
      u.last_shift_date = some last →
      now + msPerDay ≤ last →
      restTerm now u < 0 ∧
        calculateFCFSScore now u s < seniorityTerm u + skillTerm u s + 25 := by
  intro now u s last hlast hfut
  have hpos : (0 : ℚ) < (msPerDay : ℚ) := by norm_num [msPerDay]
  have hdiv : ((now - last : ℤ) : ℚ) / (msPerDay : ℚ) ≤ -1 := by
    rw [div_le_iff₀ hpos]
    push_cast
    have : (now : ℚ) + (msPerDay : ℚ) ≤ (last : ℚ) := by exact_mod_cast hfut
    linarith
  have hfl : (⌊((now - last : ℤ) : ℚ) / (msPerDay : ℚ)⌋ : ℤ) ≤ -1 := by
    have h := Int.floor_le_floor hdiv
    have hm1 : (⌊(-1 : ℚ)⌋ : ℤ) = -1 := by norm_num
    rw [hm1] at h
    exact h
  have hflq : ((⌊((now - last : ℤ) : ℚ) / (msPerDay : ℚ)⌋ : ℤ) : ℚ) ≤ -1 := by
    exact_mod_cast hfl
  have hrest : restTerm now u ≤ -(1/5) := by
    rw [restTerm, hlast]
    refine le_trans (min_le_left _ _) ?_
    nlinarith
  have hrestneg : restTerm now u < 0 := lt_of_le_of_lt hrest (by norm_num)
  refine ⟨hrestneg, ?_⟩
  rw [calculateFCFSScore, jsRound2, jsRound]
  set S : ℚ := seniorityTerm u + restTerm now u + skillTerm u s + 25 with hS
  have hfloor : ((⌊S * 100 + 1/2⌋ : ℤ) : ℚ) ≤ S * 100 + 1/2 := Int.floor_le _
  have hSle : S ≤ seniorityTerm u + skillTerm u s + 25 - 1/5 := by
    rw [hS]; linarith
  rw [div_lt_iff₀ (by norm_num : (0:ℚ) < 100)]
  linarith

/-- Witness for `future_last_shift_lowers_score`: `futureCand`'s last shift
is exactly one day after the clock 0; the term is −0.2 and the score 39.8
falls below 15 + 0 + 25 = 40. -/
theorem future_last_shift_lowers_score_witness :
    futureCand.last_shift_date = some msPerDay ∧
    (0 : Time) + msPerDay ≤ msPerDay ∧
    restTerm 0 futureCand < 0 ∧
    calculateFCFSScore 0 futureCand shiftICU
      < seniorityTerm futureCand + skillTerm futureCand shiftICU + 25 :=
  ⟨rfl, by decide,
    (future_last_shift_lowers_score 0 futureCand shiftICU msPerDay rfl (by decide)).1,
    (future_last_shift_lowers_score 0 futureCand shiftICU msPerDay rfl (by decide)).2⟩

/-! ## Fixtures for the respond state machine

A store with one `in_queue` shift and two `pending` entries, written out
literally (it is the store `createShiftHandler` produces at time 0 from the
directory `[creatorU, candA, candB]`, with the two computed scores — 65 and
51 at that clock — inlined). -/

/-- The scenario shift, freshly queued. -/
def rShift : Shift := ⟨0, 10, 0, some ["ICU"], .in_queue, none⟩

/-- candA's pending entry for shift 0, deadline 24h after epoch. -/
def entryA : QueueEntry := ⟨1, 0, 1, 65, 86400000, .pending⟩

/-- candB's pending entry for shift 0, same shared deadline. -/
def entryB : QueueEntry := ⟨2, 0, 2, 51, 86400000, .pending⟩

/-- The store in which the race happens: shift 0 `in_queue`, entries 1 and 2
`pending`. -/
def raceState : State :=
  ⟨[creatorU, candA, candB], [rShift], [entryA, entryB],
    [⟨1, 0⟩, ⟨2, 0⟩], 3⟩

/-- `raceState` after candA's entry was declined. -/
def raceDeclined : State :=
  ⟨[creatorU, candA, candB], [rShift],
    [{ entryA with status := .declined }, entryB], [⟨1, 0⟩, ⟨2, 0⟩], 3⟩

/-- `raceState` mid-way through candA's accept: the shift is already
`assigned` but the cascade has not yet reached candB's entry. -/
def raceAssigned : State :=
  ⟨[creatorU, candA, candB],
    [{ rShift with status := .assigned, assigned_user_id := some 1 }],
    [{ entryA with status := .accepted }, entryB], [⟨1, 0⟩, ⟨2, 0⟩], 3⟩

/-- When every precondition read of an accept request passes against the
state it observes, the handler returns success and its write phase is
exactly `acceptCommit`: the splitting of `respond` into the two phases is
faithful. -/
theorem respond_accept_phases (now : Time) (uid qid : Nat) (st : State)
    (e : QueueEntry) (he : findEntry st qid uid = some e)
    (hp : e.status = .pending) (hd : ¬ now > e.response_deadline)
    (s : Shift) (hs : getShift st e.shift_id = some s)
    (hq : s.status = .in_queue) :
    respond now uid qid .accept st = (.success, acceptCommit uid qid e.shift_id st) := by
  have hsid : s.id = e.shift_id := by
    have h := List.find?_some hs
    exact of_decide_eq_true h
  simp [respond, he, hp, hd, hs, hq, acceptCommit, hsid]

/-- Claim C1 (code bug): the accept path is a read-check-then-write sequence
with no atomic guard, so under the interleaving in which both requests run
all their precondition reads before either runs its writes, both requests
pass every check (first two conjuncts), each request run from the state its
reads observed returns success and commits (next two conjuncts), and after
both write phases the shift has TWO accepted entries — not exactly one
winner with the loser rejected as `shiftAlreadyAssigned`. -/
theorem concurrent_accepts_both_win :
    acceptChecksPass 5 1 1 raceState = true ∧
    acceptChecksPass 5 2 2 raceState = true ∧
    respond 5 1 1 .accept raceState = (.success, acceptCommit 1 1 0 raceState) ∧
    respond 5 2 2 .accept raceState = (.success, acceptCommit 2 2 0 raceState) ∧
    acceptedCount (acceptCommit 2 2 0 (acceptCommit 1 1 0 raceState)) 0 = 2 ∧
    entryStatusById (acceptCommit 2 2 0 (acceptCommit 1 1 0 raceState)) 1
      = some .accepted ∧
    entryStatusById (acceptCommit 2 2 0 (acceptCommit 1 1 0 raceState)) 2
      = some .accepted ∧
    (getShift (acceptCommit 2 2 0 (acceptCommit 1 1 0 raceState)) 0).map Shift.status
      = some .assigned := by
  decide

/-- Claim C4 (counterexample): a respond call arriving exactly at the
deadline — a time that is *not before* the deadline — does not fail with
`deadlinePassed`: the source checks `new Date() > response_deadline`
strictly, so the call goes through and succeeds. -/
theorem respond_at_deadline_succeeds :
    (findEntry raceState 2 2).map QueueEntry.response_deadline = some 86400000 ∧
    (respond 86400000 2 2 .accept raceState).1 = .success := by
  decide

/-- Claim C4 (amended): the respond preconditions are checked in order, each
failing with its own distinct outcome — unknown or foreign entry:
`notFoundOrUnauthorized`; entry no longer `pending`: `alreadyResolved`;
current time strictly after the deadline: `deadlinePassed` (a call exactly
at the deadline passes the check); on accept, parent shift not `in_queue`:
`shiftAlreadyAssigned` — and every failure returns the store unchanged. -/
theorem respond_failure_taxonomy :
    ∀ (now : Time) (uid qid : Nat) (d : Decision) (st : State),
      (findEntry st qid uid = none →
        respond now uid qid d st = (.notFoundOrUnauthorized, st)) ∧
      (∀ e, findEntry st qid uid = some e → e.status ≠ .pending →
        respond now uid qid d st = (.alreadyResolved, st)) ∧
      (∀ e, findEntry st qid uid = some e → e.status = .pending →
        now > e.response_deadline →
        respond now uid qid d st = (.deadlinePassed, st)) ∧
      (∀ e s, findEntry st qid uid = some e → e.status = .pending →
        ¬ now > e.response_deadline → getShift st e.shift_id = some s →
        s.status ≠ .in_queue →
        respond now uid qid .accept st = (.shiftAlreadyAssigned, st)) := by
  intro now uid qid d st
  refine ⟨?_, ?_, ?_, ?_⟩
  · intro h
    simp [respond, h]
  · intro e he hne
    simp [respond, he, hne]
  · intro e he hp hd
    simp [respond, he, hp, hd]
  · intro e s he hp hd hs hq
    simp [respond, he, hp, hd, hs, hq]

/-- Witness for `respond_failure_taxonomy`: all four rejections observed on
concrete stores — a foreign caller (candidate 3 on candA's entry), an accept
on an already-declined entry, an accept one millisecond past the deadline,
and an accept while the shift is already assigned; each leaves the store as
it was. -/
theorem respond_failure_taxonomy_witness :
    respond 5 3 1 .accept raceState = (.notFoundOrUnauthorized, raceState) ∧
    respond 6 1 1 .accept raceDeclined = (.alreadyResolved, raceDeclined) ∧
    respond 86400001 2 2 .accept raceState = (.deadlinePassed, raceState) ∧
    respond 5 2 2 .accept raceAssigned = (.shiftAlreadyAssigned, raceAssigned) :=
  ⟨(respond_failure_taxonomy 5 3 1 .accept raceState).1 (by decide),
   (respond_failure_taxonomy 6 1 1 .accept raceDeclined).2.1
     { entryA with status := .declined } (by decide) (by decide),
   (respond_failure_taxonomy 86400001 2 2 .accept raceState).2.2.1
     entryB (by decide) (by decide) (by decide),
   (respond_failure_taxonomy 5 2 2 .accept raceAssigned).2.2.2
     entryB { rShift with status := .assigned, assigned_user_id := some 1 }
     (by decide) (by decide) (by decide) (by decide) (by decide)⟩

/-! ## Characterisation of the queue build -/

/-- The batch of queue entries the build loop produces for a user list,
with ids drawn consecutively from `i`. -/
def mkEntries (now : Time) (shift : Shift) (deadline : Time) :
    List User → Nat → List QueueEntry
  | [], _ => []
  | u :: rest, i =>
      { id := i, shift_id := shift.id, user_id := u.id,
        priority_score := calculateFCFSScore now u shift,
        response_deadline := deadline, status := .pending }
        :: mkEntries now shift deadline rest (i + 1)

theorem mkEntries_status (now : Time) (shift : Shift) (deadline : Time) :
    ∀ (users : List User) (i : Nat) (q : QueueEntry),
      q ∈ mkEntries now shift deadline users i →
      q.status = .pending ∧ q.response_deadline = deadline ∧ q.shift_id = shift.id := by
  intro users
  induction users with
  | nil => intro i q hq; simp [mkEntries] at hq
  | cons u rest ih =>
      intro i q hq
      rw [mkEntries, List.mem_cons] at hq
      rcases hq with hq | hq
      · subst hq; exact ⟨rfl, rfl, rfl⟩
      · exact ih (i + 1) q hq

theorem mkEntries_users (now : Time) (shift : Shift) (deadline : Time) :
    ∀ (users : List User) (i : Nat),
      (mkEntries now shift deadline users i).map QueueEntry.user_id
          = users.map User.id ∧
      (mkEntries now shift deadline users i).map QueueEntry.priority_score
          = users.map (fun u => calculateFCFSScore now u shift) := by
  intro users
  induction users with
  | nil => intro i; simp [mkEntries]
  | cons u rest ih =>
      intro i
      rw [mkEntries]
      simp only [List.map_cons]
      exact ⟨by rw [(ih (i + 1)).1], by rw [(ih (i + 1)).2]⟩

theorem mkEntries_ids (now : Time) (shift : Shift) (deadline : Time) :
    ∀ (users : List User) (i : Nat) (q : QueueEntry),
      q ∈ mkEntries now shift deadline users i →
      i ≤ q.id ∧ q.id < i + users.length := by
  intro users
  induction users with
  | nil => intro i q hq; simp [mkEntries] at hq
  | cons u rest ih =>
      intro i q hq
      rw [mkEntries, List.mem_cons] at hq
      rcases hq with hq | hq
      · subst hq
        simp only [List.length_cons]
        omega
      · obtain ⟨h1, h2⟩ := ih (i + 1) q hq
        simp only [List.length_cons]
        omega

/-- The per-candidate insertion loop, characterised in closed form. -/
theorem addEntriesAndNotify_eq (now : Time) (shift : Shift) (deadline : Time) :
    ∀ (users : List User) (st : State),
      addEntriesAndNotify now shift deadline users st =
        { st with
          queue := st.queue ++ mkEntries now shift deadline users st.nextId,
          notifications := st.notifications
            ++ users.map (fun u => ⟨u.id, shift.id⟩),
          nextId := st.nextId + users.length } := by
  intro users
  induction users with
  | nil =>
      intro st
      simp [addEntriesAndNotify, mkEntries]
  | cons u rest ih =>
      intro st
      rw [addEntriesAndNotify, ih]
      simp [mkEntries, Nat.add_assoc, Nat.add_comm 1 rest.length]

/-- Rows whose id differs from the updated one are untouched by
`updateShiftRow`. -/
theorem updateShiftRow_of_ne (shifts : List Shift) (id : Nat)
    (f : Shift → Shift) (h : ∀ s ∈ shifts, s.id ≠ id) :
    updateShiftRow shifts id f = shifts := by
  induction shifts with
  | nil => rfl
  | cons s rest ih =>
      rw [updateShiftRow, List.map_cons]
      have hs : s.id ≠ id := h s (List.mem_cons_self s rest)
      rw [if_neg hs]
      have := ih (fun t ht => h t (List.mem_cons_of_mem s ht))
      rw [updateShiftRow] at this
      rw [this]

/-- The shift record the `POST /api/shifts` handler inserts before queueing
(status defaults to `available`). -/
def newShift (departmentId createdBy : Nat)
    (requiredSkills : Option (List String)) (id : Nat) : Shift :=
  { id := id, department_id := departmentId, created_by := createdBy,
    required_skills := requiredSkills, status := .available,
    assigned_user_id := none }

/-- Closed form of the whole `POST /api/shifts` handler, assuming every
existing shift id is below the fresh-id counter (true of every reachable
store). -/
theorem createShiftHandler_spec (now : Time) (dep cb : Nat)
    (skills : Option (List String)) (st : State)
    (h : ∀ s ∈ st.shifts, s.id < st.nextId) :
    createShiftHandler now dep cb skills st =
      { users := st.users,
        shifts := st.shifts
          ++ [{ newShift dep cb skills st.nextId with status := .in_queue }],
        queue := st.queue
          ++ mkEntries now (newShift dep cb skills st.nextId)
              (now + responseWindowMs)
              (getEligibleUsersForShift st.users (newShift dep cb skills st.nextId))
              (st.nextId + 1),
        notifications := st.notifications
          ++ (getEligibleUsersForShift st.users (newShift dep cb skills st.nextId)).map
              (fun u => ⟨u.id, st.nextId⟩),
        nextId := st.nextId + 1
          + (getEligibleUsersForShift st.users (newShift dep cb skills st.nextId)).length } := by
  have hne : ∀ s ∈ st.shifts, s.id ≠ st.nextId := by
    intro s hs
    exact Nat.ne_of_lt (h s hs)
  have hupd : updateShiftRow
      (st.shifts ++ [newShift dep cb skills st.nextId]) st.nextId
      (fun s => { s with status := ShiftStatus.in_queue })
      = st.shifts ++ [{ newShift dep cb skills st.nextId with
          status := ShiftStatus.in_queue }] := by
    rw [updateShiftRow, List.map_append]
    have h1 := updateShiftRow_of_ne st.shifts st.nextId
      (fun s => { s with status := ShiftStatus.in_queue }) hne
    rw [updateShiftRow] at h1
    rw [h1]
    simp [newShift]
  simp only [newShift] at hupd ⊢
  simp only [createShiftHandler]
  rw [addEntriesAndNotify_eq]
  rw [hupd]

/-- After the build, looking the fresh shift up returns it with status
`in_queue`. -/
theorem getShift_createShiftHandler (now : Time) (dep cb : Nat)
    (skills : Option (List String)) (st : State)
    (h : ∀ s ∈ st.shifts, s.id < st.nextId) :
    getShift (createShiftHandler now dep cb skills st) st.nextId
      = some { newShift dep cb skills st.nextId with status := .in_queue } := by
  rw [createShiftHandler_spec now dep cb skills st h]
  simp only [getShift]
  rw [List.find?_append]
  have h0 : List.find? (fun s => decide (s.id = st.nextId)) st.shifts = none := by
    rw [List.find?_eq_none]
    intro x hx
    simp only [decide_eq_true_eq]
    exact Nat.ne_of_lt (h x hx)
  rw [h0]
  simp [newShift]

/-- Claim C5: on shift creation the engine queues exactly the active users
of the shift's department other than its creator (membership in the eligible
list is equivalent to exactly those three conditions — no skill or
experience filter), appends one `pending` entry per eligible candidate
carrying that candidate's computed score and the one shared deadline
`now + 24h`, sets the new shift's status to `in_queue`, and appends one
notification per queued candidate. -/
theorem fcfs_queue_build (now : Time) (dep cb : Nat)
    (skills : Option (List String)) (st : State)
    (h : ∀ s ∈ st.shifts, s.id < st.nextId) :
    (∀ u, u ∈ getEligibleUsersForShift st.users (newShift dep cb skills st.nextId)
        ↔ u ∈ st.users ∧ u.department_id = dep ∧ u.is_active = true ∧ u.id ≠ cb) ∧
    (createShiftHandler now dep cb skills st).queue
      = st.queue ++ mkEntries now (newShift dep cb skills st.nextId)
          (now + responseWindowMs)
          (getEligibleUsersForShift st.users (newShift dep cb skills st.nextId))
          (st.nextId + 1) ∧
    (∀ q, q ∈ mkEntries now (newShift dep cb skills st.nextId)
          (now + responseWindowMs)
          (getEligibleUsersForShift st.users (newShift dep cb skills st.nextId))
          (st.nextId + 1) →
        q.status = .pending ∧ q.response_deadline = now + responseWindowMs ∧
          q.shift_id = st.nextId) ∧
    (mkEntries now (newShift dep cb skills st.nextId) (now + responseWindowMs)
        (getEligibleUsersForShift st.users (newShift dep cb skills st.nextId))
        (st.nextId + 1)).map QueueEntry.user_id
      = (getEligibleUsersForShift st.users (newShift dep cb skills st.nextId)).map
          User.id ∧
    (mkEntries now (newShift dep cb skills st.nextId) (now + responseWindowMs)
        (getEligibleUsersForShift st.users (newShift dep cb skills st.nextId))
        (st.nextId + 1)).map QueueEntry.priority_score
      = (getEligibleUsersForShift st.users (newShift dep cb skills st.nextId)).map
          (fun u => calculateFCFSScore now u (newShift dep cb skills st.nextId)) ∧
    getShift (createShiftHandler now dep cb skills st) st.nextId
      = some { newShift dep cb skills st.nextId with status := .in_queue } ∧
    (createShiftHandler now dep cb skills st).notifications
      = st.notifications
        ++ (getEligibleUsersForShift st.users (newShift dep cb skills st.nextId)).map
            (fun u => ⟨u.id, st.nextId⟩) := by
  refine ⟨?_, ?_, ?_, ?_, ?_, ?_, ?_⟩
  · intro u
    simp [getEligibleUsersForShift, newShift, List.mem_filter, and_assoc]
  · rw [createShiftHandler_spec now dep cb skills st h]
  · intro q hq
    have h3 := mkEntries_status now (newShift dep cb skills st.nextId)
      (now + responseWindowMs) _ _ q hq
    simpa [newShift] using h3
  · exact (mkEntries_users now (newShift dep cb skills st.nextId)
      (now + responseWindowMs) _ _).1
  · exact (mkEntries_users now (newShift dep cb skills st.nextId)
      (now + responseWindowMs) _ _).2
  · exact getShift_createShiftHandler now dep cb skills st h
  · rw [createShiftHandler_spec now dep cb skills st h]

/-- Witness for `fcfs_queue_build`: the build at time 0 on a directory of
three department-10 users (the creator and both candidates) appends exactly
the two candidates' entries. -/
theorem fcfs_queue_build_witness :
    (∀ s ∈ (initState [creatorU, candA, candB]).shifts,
        s.id < (initState [creatorU, candA, candB]).nextId) ∧
    (createShiftHandler 0 10 0 (some ["ICU"]) (initState [creatorU, candA, candB])).queue
      = (initState [creatorU, candA, candB]).queue
        ++ mkEntries 0 (newShift 10 0 (some ["ICU"]) 0) (0 + responseWindowMs)
            (getEligibleUsersForShift (initState [creatorU, candA, candB]).users
              (newShift 10 0 (some ["ICU"]) 0))
            (0 + 1) :=
  ⟨by decide,
    (fcfs_queue_build 0 10 0 (some ["ICU"])
      (initState [creatorU, candA, candB]) (by decide)).2.1⟩

/-- Claim C6 (counterexample): a shift created in a department whose only
active member is the creator gets zero queue entries and zero
notifications, yet its status still becomes `in_queue` — it is NOT left
`available` as the claim states. -/
theorem zero_eligible_still_in_queue :
    soloCreatorState.queue = [] ∧
    soloCreatorState.notifications = [] ∧
    (getShift soloCreatorState 0).map Shift.status = some .in_queue := by
  decide

/-- Claim C6 (amended): for every shift created with zero eligible
candidates the Queue Builder creates zero QueueEntries and emits zero
notifications, but the shift still transitions to `in_queue`
(routes.ts:475-476 runs unconditionally); it is not left `available`. -/
theorem zero_eligible_build (now : Time) (dep cb : Nat)
    (skills : Option (List String)) (st : State)
    (h : ∀ s ∈ st.shifts, s.id < st.nextId)
    (hz : getEligibleUsersForShift st.users (newShift dep cb skills st.nextId) = []) :
    (createShiftHandler now dep cb skills st).queue = st.queue ∧
    (createShiftHandler now dep cb skills st).notifications = st.notifications ∧
    getShift (createShiftHandler now dep cb skills st) st.nextId
      = some { newShift dep cb skills st.nextId with status := .in_queue } := by
  refine ⟨?_, ?_, getShift_createShiftHandler now dep cb skills st h⟩
  · rw [createShiftHandler_spec now dep cb skills st h]
    simp [hz, mkEntries]
  · rw [createShiftHandler_spec now dep cb skills st h]
    simp [hz]

/-- Witness for `zero_eligible_build`: the solo-creator department. -/
theorem zero_eligible_build_witness :
    (createShiftHandler 0 10 0 none (initState [creatorU])).queue
        = (initState [creatorU]).queue ∧
    (createShiftHandler 0 10 0 none (initState [creatorU])).notifications
        = (initState [creatorU]).notifications ∧
    getShift (createShiftHandler 0 10 0 none (initState [creatorU])) 0
        = some { newShift 10 0 none 0 with status := .in_queue } :=
  zero_eligible_build 0 10 0 none (initState [creatorU]) (by decide) (by decide)

/-! ## Generic lemmas about keyed rows

The store's tables are lists of rows carrying a unique key (the id column);
lookups (`find?`) and `UPDATE ... WHERE id = ?` (`map` with an id test)
interact with keys in the standard ways proved here. -/

theorem find?_key_unique {α κ : Type} [DecidableEq κ] (key : α → κ) :
    ∀ (l : List α), (l.map key).Nodup →
      ∀ e ∈ l, ∀ k, key e = k →
        l.find? (fun x => decide (key x = k)) = some e := by
  intro l
  induction l with
  | nil => intro _ e he; exact absurd he (List.not_mem_nil e)
  | cons a t ih =>
      intro hn e he k hk
      rw [List.map_cons, List.nodup_cons] at hn
      rcases List.mem_cons.mp he with rfl | het
      · exact List.find?_cons_of_pos t (by simp [hk])
      · have hka : ¬ key a = k := by
          intro hak
          exact hn.1 (List.mem_map.mpr ⟨e, het, by rw [hk, hak]⟩)
        rw [List.find?_cons_of_neg t (by simp [hka])]
        exact ih hn.2 e het k hk

theorem countP_key_le_one {α κ : Type} [DecidableEq κ] (key : α → κ) :
    ∀ (l : List α), (l.map key).Nodup →
      ∀ k, l.countP (fun x => decide (key x = k)) ≤ 1 := by
  intro l
  induction l with
  | nil => intro _ k; simp
  | cons a t ih =>
      intro hn k
      rw [List.map_cons, List.nodup_cons] at hn
      rw [List.countP_cons]
      by_cases hak : key a = k
      · have h0 : t.countP (fun x => decide (key x = k)) = 0 := by
          rw [List.countP_eq_zero]
          intro x hx
          simp only [decide_eq_true_eq]
          intro hxk
          exact hn.1 (List.mem_map.mpr ⟨x, hx, by rw [hxk, hak]⟩)
        simp [hak, h0]
      · have := ih hn.2 k
        simp only [hak]
        simpa using this

theorem find?_map_keypres {α κ : Type} [DecidableEq κ] (key : α → κ)
    (g : α → α) (hg : ∀ x, key (g x) = key x) (l : List α) (k : κ) :
    (l.map g).find? (fun x => decide (key x = k))
      = (l.find? (fun x => decide (key x = k))).map g := by
  rw [List.find?_map]
  have hfun : ((fun x => decide (key x = k)) ∘ g) = (fun x => decide (key x = k)) := by
    funext x
    simp [Function.comp, hg x]
  rw [hfun]

theorem map_map_keypres {α κ : Type} (key : α → κ) (g : α → α)
    (hg : ∀ x, key (g x) = key x) (l : List α) :
    (l.map g).map key = l.map key := by
  rw [List.map_map]
  exact List.map_congr_left (fun x _ => hg x)

/-! ## The accept write phase as one row transform -/

/-- The row transform the accept path's two queue writes amount to: the
target entry becomes `accepted`; any other still-`pending` entry of the same
shift becomes `expired`; everything else is untouched. -/
def acceptTransform (qid sid : Nat) (x : QueueEntry) : QueueEntry :=
  if x.id = qid then { x with status := .accepted }
  else if x.shift_id = sid ∧ x.status = .pending then { x with status := .expired }
  else x

theorem cascade_update_eq (q : List QueueEntry) (qid sid : Nat) :
    cascadeExpire (updateEntryStatus q qid .accepted) sid qid
      = q.map (acceptTransform qid sid) := by
  rw [cascadeExpire, updateEntryStatus, List.map_map]
  refine List.map_congr_left ?_
  intro x _
  by_cases h1 : x.id = qid
  · simp [acceptTransform, Function.comp, h1]
  · by_cases h2 : x.shift_id = sid ∧ x.status = .pending
    · simp [acceptTransform, Function.comp, h1, h2.1, h2.2]
    · simp only [Function.comp, acceptTransform, if_neg h1]
      rw [if_neg, if_neg h2]
      intro hc
      exact h2 ⟨hc.1, hc.2.2⟩

theorem acceptTransform_id (qid sid : Nat) (x : QueueEntry) :
    (acceptTransform qid sid x).id = x.id := by
  rw [acceptTransform]
  split <;> try rfl
  split <;> rfl

theorem acceptTransform_shift (qid sid : Nat) (x : QueueEntry) :
    (acceptTransform qid sid x).shift_id = x.shift_id := by
  rw [acceptTransform]
  split <;> try rfl
  split <;> rfl

/-- A found queue entry is a row of the table, owned by the requested user,
with the requested id. -/
theorem findEntry_some (st : State) (qid uid : Nat) (e : QueueEntry)
    (he : findEntry st qid uid = some e) :
    e ∈ st.queue ∧ e.id = qid ∧ e.user_id = uid := by
  rw [findEntry] at he
  have hm := List.mem_of_find?_eq_some he
  have hid := List.find?_some he
  have hu := (List.mem_filter.mp hm).2
  refine ⟨List.mem_of_mem_filter hm, ?_, ?_⟩
  · exact of_decide_eq_true hid
  · exact of_decide_eq_true hu

/-- A found shift is a row of the table with the requested id. -/
theorem getShift_some (st : State) (k : Nat) (s : Shift)
    (hs : getShift st k = some s) : s ∈ st.shifts ∧ s.id = k := by
  rw [getShift] at hs
  have hm := List.mem_of_find?_eq_some hs
  have hp := List.find?_some hs
  exact ⟨hm, of_decide_eq_true hp⟩

/-- Claim C3: when all four accept preconditions hold (entry found and
owned, `pending`, deadline not passed, parent shift `in_queue`), the call
succeeds; afterwards the responding entry is `accepted`, the shift is
`assigned` to the responding candidate, every other entry of that shift that
was `pending` is `expired`, entries already out of `pending` are unchanged
rows, and entries of other shifts are unchanged rows. -/
theorem accept_success_effects (now : Time) (uid qid : Nat) (st : State)
    (e : QueueEntry) (he : findEntry st qid uid = some e)
    (hp : e.status = .pending) (hd : ¬ now > e.response_deadline)
    (s : Shift) (hs : getShift st e.shift_id = some s)
    (hq : s.status = .in_queue)
    (hnq : (st.queue.map QueueEntry.id).Nodup) :
    (respond now uid qid .accept st).1 = .success ∧
    entryStatusById (respond now uid qid .accept st).2 qid = some .accepted ∧
    getShift (respond now uid qid .accept st).2 e.shift_id
      = some { s with status := .assigned, assigned_user_id := some uid } ∧
    (∀ e' ∈ st.queue, e'.id ≠ qid → e'.shift_id = e.shift_id →
      e'.status = .pending →
      entryStatusById (respond now uid qid .accept st).2 e'.id = some .expired) ∧
    (∀ e' ∈ st.queue, e'.status ≠ .pending →
      (respond now uid qid .accept st).2.queue.find?
        (fun x => decide (x.id = e'.id)) = some e') ∧
    (∀ e' ∈ st.queue, e'.shift_id ≠ e.shift_id → e'.id ≠ qid →
      (respond now uid qid .accept st).2.queue.find?
        (fun x => decide (x.id = e'.id)) = some e') := by
  obtain ⟨hem, heid, _⟩ := findEntry_some st qid uid e he
  obtain ⟨hsm, hsid⟩ := getShift_some st e.shift_id s hs
  have hre := respond_accept_phases now uid qid st e he hp hd s hs hq
  have hstate : (respond now uid qid .accept st).2 =
      { st with
        queue := st.queue.map (acceptTransform qid e.shift_id),
        shifts := updateShiftRow st.shifts e.shift_id
          (fun sh => { sh with status := .assigned, assigned_user_id := some uid }) } := by
    rw [hre, acceptCommit, cascade_update_eq]
  have hfq : ∀ k, (st.queue.map (acceptTransform qid e.shift_id)).find?
      (fun x => decide (x.id = k))
      = (st.queue.find? (fun x => decide (x.id = k))).map
          (acceptTransform qid e.shift_id) :=
    fun k => find?_map_keypres QueueEntry.id (acceptTransform qid e.shift_id)
      (acceptTransform_id qid e.shift_id) st.queue k
  refine ⟨by rw [hre], ?_, ?_, ?_, ?_, ?_⟩
  · rw [hstate, entryStatusById]
    dsimp only
    rw [hfq qid, find?_key_unique QueueEntry.id st.queue hnq e hem qid heid]
    simp [acceptTransform, heid]
  · rw [hstate, getShift]
    dsimp only
    rw [updateShiftRow]
    rw [find?_map_keypres Shift.id
      (fun sh => if sh.id = e.shift_id then
        { sh with status := .assigned, assigned_user_id := some uid } else sh)
      (fun sh => by dsimp only; split <;> rfl) st.shifts e.shift_id]
    rw [getShift] at hs
    rw [hs]
    simp [hsid]
  · intro e' he'm he'id he'sh he'p
    rw [hstate, entryStatusById]
    dsimp only
    rw [hfq e'.id, find?_key_unique QueueEntry.id st.queue hnq e' he'm e'.id rfl]
    simp [acceptTransform, he'id, he'sh, he'p]
  · intro e' he'm he'p
    have he'id : e'.id ≠ qid := by
      intro hcontra
      have h1 := find?_key_unique QueueEntry.id st.queue hnq e' he'm qid hcontra
      have h2 := find?_key_unique QueueEntry.id st.queue hnq e hem qid heid
      rw [h1] at h2
      injection h2 with h3
      exact he'p (by rw [h3, hp])
    rw [hstate]
    dsimp only
    rw [hfq e'.id, find?_key_unique QueueEntry.id st.queue hnq e' he'm e'.id rfl]
    have ht : acceptTransform qid e.shift_id e' = e' := by
      rw [acceptTransform, if_neg he'id, if_neg]
      intro hc
      exact he'p hc.2
    rw [Option.map_some', ht]
  · intro e' he'm he'sh he'id
    rw [hstate]
    dsimp only
    rw [hfq e'.id, find?_key_unique QueueEntry.id st.queue hnq e' he'm e'.id rfl]
    have ht : acceptTransform qid e.shift_id e' = e' := by
      rw [acceptTransform, if_neg he'id, if_neg]
      intro hc
      exact he'sh hc.1
    rw [Option.map_some', ht]

/-- Witness for `accept_success_effects`: scenario 2 — candB accepts entry 2
on `raceState`; the call succeeds, entry 2 is `accepted`, shift 0 is
`assigned` to candidate 2. -/
theorem accept_success_effects_witness :
    (respond 5 2 2 .accept raceState).1 = .success ∧
    entryStatusById (respond 5 2 2 .accept raceState).2 2 = some .accepted ∧
    getShift (respond 5 2 2 .accept raceState).2 0
      = some { rShift with status := .assigned, assigned_user_id := some 2 } :=
  have h := accept_success_effects 5 2 2 raceState entryB (by decide) (by decide)
    (by decide) rShift (by decide) (by decide) (by decide)
  ⟨h.1, h.2.1, h.2.2.1⟩

/-! ## Case analysis of the respond handler -/

/-- Every respond call either leaves the store unchanged (one of the five
rejections), or declines the target entry, or runs the accept commit. -/
theorem respond_cases (now : Time) (uid qid : Nat) (d : Decision) (st : State) :
    (respond now uid qid d st).2 = st ∨
    (∃ e, findEntry st qid uid = some e ∧ e.status = .pending ∧
      ¬ now > e.response_deadline ∧ d = .decline ∧
      (respond now uid qid d st).2
        = { st with queue := updateEntryStatus st.queue qid .declined }) ∨
    (∃ e s, findEntry st qid uid = some e ∧ e.status = .pending ∧
      ¬ now > e.response_deadline ∧ d = .accept ∧
      getShift st e.shift_id = some s ∧ s.status = .in_queue ∧
      (respond now uid qid d st).2 = acceptCommit uid qid e.shift_id st) := by
  rcases hfe : findEntry st qid uid with _ | e
  · left
    simp [respond, hfe]
  · by_cases hp : e.status = .pending
    · by_cases hd : now > e.response_deadline
      · left
        simp [respond, hfe, hp, hd]
      · cases d with
        | accept =>
            rcases hgs : getShift st e.shift_id with _ | s
            · left
              simp [respond, hfe, hp, hd, hgs]
            · by_cases hq : s.status = .in_queue
              · right; right
                refine ⟨e, s, rfl, hp, hd, rfl, hgs, hq, ?_⟩
                rw [respond_accept_phases now uid qid st e hfe hp hd s hgs hq]
              · left
                simp [respond, hfe, hp, hd, hgs, hq]
        | decline =>
            right; left
            refine ⟨e, rfl, hp, hd, rfl, ?_⟩
            simp [respond, hfe, hp, hd]
    · left
      simp [respond, hfe, hp]

/-! ## The reachable-store invariant -/

/-- Properties every store reachable from an initial store satisfies: ids
are below the fresh-id counter, id columns are duplicate-free, any
`accepted` entry's shift is `assigned`, and every shift has at most one
`accepted` entry. -/
structure Inv (st : State) : Prop where
  shiftIdLt : ∀ s ∈ st.shifts, s.id < st.nextId
  entryIdLt : ∀ e ∈ st.queue, e.id < st.nextId
  entryShiftLt : ∀ e ∈ st.queue, e.shift_id < st.nextId
  shiftNodup : (st.shifts.map Shift.id).Nodup
  entryNodup : (st.queue.map QueueEntry.id).Nodup
  acceptedAssigned : ∀ e ∈ st.queue, e.status = .accepted →
    ∀ s ∈ st.shifts, s.id = e.shift_id → s.status = .assigned
  oneAccepted : ∀ sid, acceptedCount st sid ≤ 1

theorem inv_initState (users : List User) : Inv (initState users) := by
  refine ⟨?_, ?_, ?_, ?_, ?_, ?_, ?_⟩ <;>
    simp [initState, acceptedCount]

/-- The id column of a freshly built batch is the run of consecutive ids,
hence duplicate-free. -/
theorem mkEntries_nodup (now : Time) (shift : Shift) (deadline : Time) :
    ∀ (users : List User) (i : Nat),
      ((mkEntries now shift deadline users i).map QueueEntry.id).Nodup := by
  intro users
  induction users with
  | nil => intro i; simp [mkEntries]
  | cons u rest ih =>
      intro i
      rw [mkEntries, List.map_cons, List.nodup_cons]
      refine ⟨?_, ih (i + 1)⟩
      intro hmem
      obtain ⟨q, hq, hqi⟩ := List.mem_map.mp hmem
      dsimp only at hqi
      have := (mkEntries_ids now shift deadline rest (i + 1) q hq).1
      omega

theorem inv_create (now : Time) (dep cb : Nat)
    (skills : Option (List String)) (st : State) (h : Inv st) :
    Inv (createShiftHandler now dep cb skills st) := by
  have hspec := createShiftHandler_spec now dep cb skills st h.shiftIdLt
  have hrw : ({ newShift dep cb skills st.nextId with status := ShiftStatus.in_queue } : Shift)
      = (⟨st.nextId, dep, cb, skills, .in_queue, none⟩ : Shift) := rfl
  rw [hrw] at hspec
  rw [hspec]
  have hIds := mkEntries_ids now (newShift dep cb skills st.nextId)
    (now + responseWindowMs)
    (getEligibleUsersForShift st.users (newShift dep cb skills st.nextId))
    (st.nextId + 1)
  have hStat := mkEntries_status now (newShift dep cb skills st.nextId)
    (now + responseWindowMs)
    (getEligibleUsersForShift st.users (newShift dep cb skills st.nextId))
    (st.nextId + 1)
  have hNodup := mkEntries_nodup now (newShift dep cb skills st.nextId)
    (now + responseWindowMs)
    (getEligibleUsersForShift st.users (newShift dep cb skills st.nextId))
    (st.nextId + 1)
  set E := getEligibleUsersForShift st.users (newShift dep cb skills st.nextId) with hE
  set B := mkEntries now (newShift dep cb skills st.nextId)
    (now + responseWindowMs) E (st.nextId + 1) with hB
  have hshift : ∀ q ∈ B, q.shift_id = st.nextId := by
    intro q hq
    exact (hStat q hq).2.2
  refine ⟨?_, ?_, ?_, ?_, ?_, ?_, ?_⟩
  · intro s hs
    dsimp only
    rcases List.mem_append.mp hs with hs | hs
    · have := h.shiftIdLt s hs
      omega
    · rw [List.mem_singleton.mp hs]
      dsimp only
      omega
  · intro e he
    dsimp only
    rcases List.mem_append.mp he with he | he
    · have := h.entryIdLt e he
      omega
    · have := (hIds e he).2
      omega
  · intro e he
    dsimp only
    rcases List.mem_append.mp he with he | he
    · have := h.entryShiftLt e he
      omega
    · rw [hshift e he]
      omega
  · dsimp only
    rw [List.map_append, List.nodup_append]
    refine ⟨h.shiftNodup, by simp, ?_⟩
    intro k hk hk2
    simp only [List.map_cons, List.map_nil, List.mem_singleton] at hk2
    obtain ⟨s, hs, hsk⟩ := List.mem_map.mp hk
    have := h.shiftIdLt s hs
    omega
  · dsimp only
    rw [List.map_append, List.nodup_append]
    refine ⟨h.entryNodup, hNodup, ?_⟩
    intro k hk hk2
    obtain ⟨e, he, hek⟩ := List.mem_map.mp hk
    obtain ⟨q, hq, hqk⟩ := List.mem_map.mp hk2
    have h1 := h.entryIdLt e he
    have h2 := (hIds q hq).1
    omega
  · intro e he hacc s hs hsid
    dsimp only at he hs
    rcases List.mem_append.mp he with he | he
    · rcases List.mem_append.mp hs with hs | hs
      · exact h.acceptedAssigned e he hacc s hs hsid
      · rw [List.mem_singleton.mp hs] at hsid
        dsimp only at hsid
        have h1 := h.entryShiftLt e he
        omega
    · have := (hStat e he).1
      rw [this] at hacc
      exact absurd hacc (by simp)
  · intro sid
    rw [acceptedCount]
    dsimp only
    rw [List.filter_append]
    have hz : B.filter
        (fun e => decide (e.shift_id = sid ∧ e.status = QueueStatus.accepted)) = [] := by
      rw [List.filter_eq_nil_iff]
      intro q hq
      have := (hStat q hq).1
      simp [this]
    rw [hz, List.append_nil]
    exact h.oneAccepted sid

theorem eq_of_key_of_mem {α κ : Type} [DecidableEq κ] (key : α → κ)
    (l : List α) (hn : (l.map key).Nodup) (x y : α) (hx : x ∈ l) (hy : y ∈ l)
    (hk : key x = key y) : x = y := by
  have h1 := find?_key_unique key l hn x hx (key y) hk
  have h2 := find?_key_unique key l hn y hy (key y) rfl
  rw [h1] at h2
  exact Option.some.inj h2

theorem inv_respond (now : Time) (uid qid : Nat) (d : Decision) (st : State)
    (h : Inv st) : Inv (respond now uid qid d st).2 := by
  rcases respond_cases now uid qid d st with hsame |
    ⟨e, hfe, hp, hd, hdec, heq⟩ | ⟨e, s, hfe, hp, hd, hdec, hgs, hq, heq⟩
  · rw [hsame]
    exact h
  · -- decline: the queue map flips the (pending) target entry to declined
    rw [heq]
    obtain ⟨hem, heid, _⟩ := findEntry_some st qid uid e hfe
    rw [updateEntryStatus]
    have hgid : ∀ x : QueueEntry,
        ((if x.id = qid then { x with status := QueueStatus.declined } else x) : QueueEntry).id = x.id := by
      intro x
      split <;> rfl
    have hgsh : ∀ x : QueueEntry,
        ((if x.id = qid then { x with status := QueueStatus.declined } else x) : QueueEntry).shift_id = x.shift_id := by
      intro x
      split <;> rfl
    have hgx : ∀ x : QueueEntry, x ∈ st.queue →
        (if x.id = qid then { x with status := QueueStatus.declined } else x) = x ∨
        ((if x.id = qid then { x with status := QueueStatus.declined } else x) : QueueEntry).status = .declined ∧ x = e := by
      intro x hx
      by_cases h1 : x.id = qid
      · right
        refine ⟨by simp [h1], ?_⟩
        exact eq_of_key_of_mem QueueEntry.id st.queue h.entryNodup x e hx hem
          (by rw [h1, heid])
      · left
        simp [h1]
    refine ⟨h.shiftIdLt, ?_, ?_, h.shiftNodup, ?_, ?_, ?_⟩
    · intro x' hx'
      obtain ⟨x, hx, rfl⟩ := List.mem_map.mp hx'
      rw [hgid x]
      exact h.entryIdLt x hx
    · intro x' hx'
      obtain ⟨x, hx, rfl⟩ := List.mem_map.mp hx'
      rw [hgsh x]
      exact h.entryShiftLt x hx
    · rw [map_map_keypres QueueEntry.id _ hgid]
      exact h.entryNodup
    · intro x' hx' hacc t ht htid
      obtain ⟨x, hx, rfl⟩ := List.mem_map.mp hx'
      rcases hgx x hx with hid | ⟨hdecl, rfl⟩
      · rw [hid] at hacc htid
        exact h.acceptedAssigned x hx hacc t ht htid
      · rw [hdecl] at hacc
        exact absurd hacc (by simp)
    · intro sid
      rw [acceptedCount]
      dsimp only
      rw [← List.countP_eq_length_filter, List.countP_map]
      have hcount : List.countP
          ((fun y => decide (y.shift_id = sid ∧ y.status = QueueStatus.accepted)) ∘
            (fun x => if x.id = qid then { x with status := QueueStatus.declined } else x))
          st.queue
          = List.countP
              (fun x => decide (x.shift_id = sid ∧ x.status = QueueStatus.accepted))
              st.queue := by
        refine List.countP_congr ?_
        intro x hx
        simp only [Function.comp_apply]
        rcases hgx x hx with hid | ⟨hdecl, rfl⟩
        · rw [hid]
        · rw [decide_eq_true_eq, decide_eq_true_eq]
          constructor
          · intro hpx
            rw [hdecl] at hpx
            exact absurd hpx.2 (by simp)
          · intro hqx
            rw [hp] at hqx
            exact absurd hqx.2 (by simp)
      rw [hcount, List.countP_eq_length_filter]
      exact h.oneAccepted sid
  · -- accept: the commit maps the queue and assigns the shift
    rw [heq, acceptCommit, cascade_update_eq, updateShiftRow]
    obtain ⟨hem, heid, _⟩ := findEntry_some st qid uid e hfe
    obtain ⟨hsm, hsid⟩ := getShift_some st e.shift_id s hgs
    have hnone : ∀ x ∈ st.queue, ¬ (x.shift_id = e.shift_id ∧ x.status = .accepted) := by
      intro x hx hc
      have := h.acceptedAssigned x hx hc.2 s hsm (by rw [hsid, hc.1])
      rw [hq] at this
      exact absurd this (by simp)
    have hgid := acceptTransform_id qid e.shift_id
    have hgsh := acceptTransform_shift qid e.shift_id
    have hsId : ∀ t : Shift,
        ((if t.id = e.shift_id then { t with status := ShiftStatus.assigned, assigned_user_id := some uid } else t) : Shift).id = t.id := by
      intro t
      split <;> rfl
    refine ⟨?_, ?_, ?_, ?_, ?_, ?_, ?_⟩
    · intro t' ht'
      obtain ⟨t, ht, rfl⟩ := List.mem_map.mp ht'
      rw [hsId t]
      exact h.shiftIdLt t ht
    · intro x' hx'
      obtain ⟨x, hx, rfl⟩ := List.mem_map.mp hx'
      rw [hgid x]
      exact h.entryIdLt x hx
    · intro x' hx'
      obtain ⟨x, hx, rfl⟩ := List.mem_map.mp hx'
      rw [hgsh x]
      exact h.entryShiftLt x hx
    · rw [map_map_keypres Shift.id _ hsId]
      exact h.shiftNodup
    · rw [map_map_keypres QueueEntry.id _ hgid]
      exact h.entryNodup
    · intro x' hx' hacc t' ht' htid
      obtain ⟨x, hx, rfl⟩ := List.mem_map.mp hx'
      obtain ⟨t, ht, rfl⟩ := List.mem_map.mp ht'
      rw [hsId t] at htid
      by_cases h1 : x.id = qid
      · have hxe : x = e :=
          eq_of_key_of_mem QueueEntry.id st.queue h.entryNodup x e hx hem
            (by rw [h1, heid])
        have hxsh : (acceptTransform qid e.shift_id x).shift_id = e.shift_id := by
          rw [hgsh, hxe]
        rw [hxsh] at htid
        rw [if_pos htid]
      · rw [acceptTransform, if_neg h1] at hacc htid
        by_cases h2 : x.shift_id = e.shift_id ∧ x.status = .pending
        · rw [if_pos h2] at hacc
          exact absurd hacc (by simp)
        · rw [if_neg h2] at hacc htid
          have hxs : x.shift_id ≠ e.shift_id := by
            intro hc
            exact hnone x hx ⟨hc, hacc⟩
          have htne : t.id ≠ e.shift_id := by
            rw [htid]
            exact hxs
          rw [if_neg htne]
          exact h.acceptedAssigned x hx hacc t ht htid
    · intro sid
      rw [acceptedCount]
      dsimp only
      rw [← List.countP_eq_length_filter, List.countP_map]
      by_cases hss : sid = e.shift_id
      · have hle : List.countP
            ((fun y => decide (y.shift_id = sid ∧ y.status = QueueStatus.accepted)) ∘
              acceptTransform qid e.shift_id) st.queue
            ≤ List.countP (fun x => decide (x.id = qid)) st.queue := by
          refine List.countP_mono_left ?_
          intro x hx hpx
          simp only [Function.comp_apply, decide_eq_true_eq] at hpx
          simp only [decide_eq_true_eq]
          by_contra h1
          rw [acceptTransform, if_neg h1] at hpx
          by_cases h2 : x.shift_id = e.shift_id ∧ x.status = .pending
          · rw [if_pos h2] at hpx
            exact absurd hpx.2 (by simp)
          · rw [if_neg h2] at hpx
            rw [hss] at hpx
            exact hnone x hx hpx
        exact le_trans hle (countP_key_le_one QueueEntry.id st.queue h.entryNodup qid)
      · have hcount : List.countP
            ((fun y => decide (y.shift_id = sid ∧ y.status = QueueStatus.accepted)) ∘
              acceptTransform qid e.shift_id) st.queue
            = List.countP
                (fun x => decide (x.shift_id = sid ∧ x.status = QueueStatus.accepted))
                st.queue := by
          refine List.countP_congr ?_
          intro x hx
          simp only [Function.comp_apply, decide_eq_true_eq]
          constructor
          · intro hpx
            by_cases h1 : x.id = qid
            · have hxe : x = e :=
                eq_of_key_of_mem QueueEntry.id st.queue h.entryNodup x e hx hem
                  (by rw [h1, heid])
              rw [acceptTransform, if_pos h1] at hpx
              have hxsh : x.shift_id = sid := hpx.1
              rw [hxe] at hxsh
              exact absurd hxsh.symm hss
            · rw [acceptTransform, if_neg h1] at hpx
              by_cases h2 : x.shift_id = e.shift_id ∧ x.status = .pending
              · rw [if_pos h2] at hpx
                exact absurd hpx.2 (by simp)
              · rw [if_neg h2] at hpx
                exact hpx
          · intro hqx
            by_cases h1 : x.id = qid
            · have hxe : x = e :=
                eq_of_key_of_mem QueueEntry.id st.queue h.entryNodup x e hx hem
                  (by rw [h1, heid])
              rw [hxe, hp] at hqx
              exact absurd hqx.2 (by simp)
            · rw [acceptTransform, if_neg h1]
              have h2 : ¬ (x.shift_id = e.shift_id ∧ x.status = .pending) := by
                intro hc
                rw [hc.2] at hqx
                exact absurd hqx.2 (by simp)
              rw [if_neg h2]
              exact hqx
        rw [hcount, List.countP_eq_length_filter]
        exact h.oneAccepted sid

theorem inv_applyOp (op : Op) (st : State) (h : Inv st) : Inv (applyOp op st) := by
  cases op with
  | create now dep cb skills => exact inv_create now dep cb skills st h
  | respondTo now uid qid d => exact inv_respond now uid qid d st h

theorem inv_runOps : ∀ (ops : List Op) (st : State), Inv st → Inv (runOps ops st) := by
  intro ops
  induction ops with
  | nil => intro st h; exact h
  | cons o rest ih =>
      intro st h
      exact ih (applyOp o st) (inv_applyOp o st h)

/-- Claim C2: in every store reachable by any sequence of queue-build and
respond operations from an initial store, each shift has at most one
`accepted` queue entry. -/
theorem at_most_one_accepted (users : List User) (ops : List Op) (sid : Nat) :
    acceptedCount (runOps ops (initState users)) sid ≤ 1 :=
  (inv_runOps ops (initState users) (inv_initState users)).oneAccepted sid

/-- One operation never moves an entry that has already left `pending`. -/
theorem entry_status_step (op : Op) (st : State) (h : Inv st) (id : Nat)
    (q : QueueStatus) (hq : entryStatusById st id = some q)
    (hnp : q ≠ .pending) : entryStatusById (applyOp op st) id = some q := by
  rw [entryStatusById] at hq
  rcases hfind : st.queue.find? (fun x => decide (x.id = id)) with _ | x0
  · rw [hfind] at hq
    exact absurd hq (by simp)
  · rw [hfind] at hq
    have hx0m := List.mem_of_find?_eq_some hfind
    have hx0p := List.find?_some hfind
    have hx0id : x0.id = id := of_decide_eq_true hx0p
    have hx0st : x0.status = q := by
      simpa using hq
    cases op with
    | create now dep cb skills =>
        rw [applyOp, createShiftHandler_spec now dep cb skills st h.shiftIdLt,
          entryStatusById]
        dsimp only
        rw [List.find?_append, hfind, Option.or_some]
        rw [← hx0st]
        rfl
    | respondTo now uid qid d =>
        rw [applyOp]
        rcases respond_cases now uid qid d st with hsame |
          ⟨e, hfe, hp, hd, hdec, heq⟩ | ⟨e, s, hfe, hp, hd, hdec, hgs, hq2, heq⟩
        · rw [hsame, entryStatusById, hfind]
          rw [← hx0st]
          rfl
        · obtain ⟨hem, heid, _⟩ := findEntry_some st qid uid e hfe
          have hne : x0.id ≠ qid := by
            intro hc
            have hxe : x0 = e :=
              eq_of_key_of_mem QueueEntry.id st.queue h.entryNodup x0 e hx0m hem
                (by rw [hc, heid])
            rw [hxe, hp] at hx0st
            exact hnp hx0st.symm
          rw [heq, entryStatusById]
          dsimp only
          rw [updateEntryStatus]
          rw [find?_map_keypres QueueEntry.id
            (fun x => if x.id = qid then { x with status := QueueStatus.declined } else x)
            (fun x => by dsimp only; split <;> rfl) st.queue id]
          rw [hfind]
          have hgx : (if x0.id = qid then
              { x0 with status := QueueStatus.declined } else x0) = x0 := if_neg hne
          rw [Option.map_some', Option.map_some', hgx, hx0st]
        · obtain ⟨hem, heid, _⟩ := findEntry_some st qid uid e hfe
          have hne : x0.id ≠ qid := by
            intro hc
            have hxe : x0 = e :=
              eq_of_key_of_mem QueueEntry.id st.queue h.entryNodup x0 e hx0m hem
                (by rw [hc, heid])
            rw [hxe, hp] at hx0st
            exact hnp hx0st.symm
          rw [heq, acceptCommit, cascade_update_eq, entryStatusById]
          dsimp only
          rw [find?_map_keypres QueueEntry.id (acceptTransform qid e.shift_id)
            (acceptTransform_id qid e.shift_id) st.queue id]
          rw [hfind]
          have hgx : acceptTransform qid e.shift_id x0 = x0 := by
            rw [acceptTransform, if_neg hne, if_neg]
            intro hc
            rw [hc.2] at hx0st
            exact hnp hx0st.symm
          rw [Option.map_some', Option.map_some', hgx, hx0st]

/-- Claim C9: queue-entry statuses are monotonic — once an entry of a
reachable store is `accepted`, `declined` or `expired`, no further sequence
of queue-build or respond operations ever changes its status again. -/
theorem entry_status_monotonic (users : List User) (ops more : List Op)
    (id : Nat) (q : QueueStatus)
    (hq : entryStatusById (runOps ops (initState users)) id = some q)
    (hnp : q ≠ .pending) :
    entryStatusById (runOps more (runOps ops (initState users))) id = some q := by
  have hInv := inv_runOps ops (initState users) (inv_initState users)
  have hgen : ∀ st0, Inv st0 → entryStatusById st0 id = some q →
      entryStatusById (runOps more st0) id = some q := by
    induction more with
    | nil => intro st0 _ hq0; exact hq0
    | cons o rest ih =>
        intro st0 hInv0 hq0
        exact ih (applyOp o st0) (inv_applyOp o st0 hInv0)
          (entry_status_step o st0 hInv0 id q hq0 hnp)
  exact hgen (runOps ops (initState users)) hInv hq

/-- Witness for `entry_status_monotonic`: after candA declines entry 1, a
later accept attempt on it leaves it `declined`. -/
theorem entry_status_monotonic_witness :
    entryStatusById
      (runOps [.create 0 10 0 (some ["ICU"]), .respondTo 5 1 1 .decline]
        (initState [creatorU, candA, candB])) 1 = some .declined ∧
    QueueStatus.declined ≠ QueueStatus.pending ∧
    entryStatusById
      (runOps [.respondTo 6 1 1 .accept]
        (runOps [.create 0 10 0 (some ["ICU"]), .respondTo 5 1 1 .decline]
          (initState [creatorU, candA, candB]))) 1 = some .declined :=
  ⟨by decide, by decide,
    entry_status_monotonic [creatorU, candA, candB]
      [.create 0 10 0 (some ["ICU"]), .respondTo 5 1 1 .decline]
      [.respondTo 6 1 1 .accept] 1 .declined (by decide) (by decide)⟩

end Scheduler
